import Mathlib

/-!
Verification of the Flow framework's router and migration runner.

This file gives a shallow embedding, in Lean 4, of the two core subsystems
of the Flow web framework:

* the internal HTTP router (`package router`): path normalization,
  segment-based route matching with `:name` parameters, registration-order
  dispatch with 405/404 fallbacks, per-route middleware composition,
  named-route reverse URL generation, and the RESTful `Resources` helper;
* the migration runner (`package migrations`, ledger-tracked version):
  `ApplyAll`, `RollbackLast` and the `flow_migrations` ledger operations.

Go strings are modelled as Lean `String`; the handful of library functions
the source uses (`strings.HasPrefix`, `strings.Trim`, `strings.Split`,
`strings.Join`, `strings.TrimSuffix`, `strings.TrimPrefix`,
`strings.ToUpper`, `sort.Strings`, `url.PathEscape`) are embedded
explicitly below, operating on the underlying character lists.  Go maps
with string keys are modelled as association lists with overwriting
insertion and first-match lookup.  HTTP handlers are abstract values of a
type parameter `α`; middleware values are functions `α → α`.  A Go panic
during route registration is modelled by the `panicked` constructor of the
registration outcome (no router is produced, so the route table is never
extended by a failed registration).  The SQL database underneath the
migration runner is modelled by an explicit state: whether the ledger
table exists, the ledger rows in applied order, and a log of the SQL
texts whose transactions committed; an oracle `execOk` decides whether
executing a given SQL text succeeds.
-/

namespace Flow

/-! ## String library helpers used by the source -/

/-- Boolean test that the first character list is a prefix of the second. -/
def listPfx : List Char → List Char → Bool
  | [], _ => true
  | _ :: _, [] => false
  | a :: as, b :: bs => a == b && listPfx as bs

/-- Model of Go strings.HasPrefix. -/
def strHasPfx (s p : String) : Bool := listPfx p.data s.data

/-- Model of Go strings.HasSuffix. -/
def strHasSfx (s sfx : String) : Bool := listPfx sfx.data.reverse s.data.reverse

/-- Model of Go strings.TrimPrefix: removes the prefix once when present. -/
def goTrimPfx (s p : String) : String :=
  if listPfx p.data s.data then String.mk (s.data.drop p.data.length) else s

/-- Model of Go strings.TrimSuffix: removes the suffix once when present. -/
def goTrimSfx (s sfx : String) : String :=
  if listPfx sfx.data.reverse s.data.reverse then
    String.mk (s.data.take (s.data.length - sfx.data.length))
  else s

/-- Drop leading slash characters. -/
def ldropSlash (l : List Char) : List Char := l.dropWhile (fun c => c == '/')

/-- Drop trailing slash characters. -/
def rdropSlash (l : List Char) : List Char := (l.reverse.dropWhile (fun c => c == '/')).reverse

/-- Model of Go strings.Trim(s, "/"): removes all leading and trailing slashes. -/
def trimSlash (s : String) : String := String.mk (ldropSlash (rdropSlash s.data))

/-- Helper for `splitSlash`: accumulates the current segment (reversed). -/
def splitSlashAux : List Char → List Char → List String
  | [], acc => [String.mk acc.reverse]
  | c :: rest, acc =>
    if c = '/' then String.mk acc.reverse :: splitSlashAux rest []
    else splitSlashAux rest (c :: acc)

/-- Model of Go strings.Split(s, "/"): splits at every slash, keeping empty pieces. -/
def splitSlash (s : String) : List String := splitSlashAux s.data []

/-- Model of Go strings.Join(parts, "/"). -/
def joinSlash : List String → String
  | [] => ""
  | [s] => s
  | s :: rest => s ++ "/" ++ joinSlash rest

/-- Model of Go strings.ToUpper, restricted to ASCII (HTTP verbs in the source are ASCII). -/
def strToUpper (s : String) : String := String.mk (s.data.map Char.toUpper)

/-- First-match lookup in an association list modelling a Go map read m[k]. -/
def lookupStr : List (String × String) → String → Option String
  | [], _ => none
  | (k0, v0) :: rest, k => if k0 = k then some v0 else lookupStr rest k

/-- Overwriting insert modelling a Go map write m[k] = v. -/
def insertStr : List (String × String) → String → String → List (String × String)
  | [], k, v => [(k, v)]
  | (k0, v0) :: rest, k, v =>
    if k0 = k then (k0, v) :: rest else (k0, v0) :: insertStr rest k v

/-- Lexicographic comparison of character lists by code point (Go byte order on UTF-8
agrees with code-point order). -/
def listLeChars : List Char → List Char → Bool
  | [], _ => true
  | _ :: _, [] => false
  | a :: as, b :: bs =>
    if a.toNat < b.toNat then true
    else if b.toNat < a.toNat then false
    else listLeChars as bs

/-- Lexicographic string comparison used to model Go sort.Strings. -/
def strLe (a b : String) : Bool := listLeChars a.data b.data

/-- Insert a string into a sorted list, keeping it sorted. -/
def insertSorted (x : String) : List String → List String
  | [] => [x]
  | y :: ys => if strLe x y then x :: y :: ys else y :: insertSorted x ys

/-- Model of Go sort.Strings: sorts lexicographically (the sorted rearrangement of a
list is unique for a total order, so any correct sort is an adequate model). -/
def sortStrs : List String → List String
  | [] => []
  | x :: xs => insertSorted x (sortStrs xs)

/-! ## Router data model (src/unnamed/part_016, package router) -/

/-- Compiled representation of a single route (Go struct route). `handler` is an
abstract handler value; `middleware` is the per-route middleware chain in
registration order. -/
structure Route (α : Type) where
  method : String
  pattern : String
  segments : List String
  handler : α
  name : String := ""
  middleware : List (α → α) := []

/-- The router: an ordered route table (Go struct Router).  The customizable
NotFound / MethodNotAllowed handlers are represented in the dispatch outcome
by the dedicated constructors below (the outcome records which configured
handler — default 404 or 405 — is invoked). -/
structure Router (α : Type) where
  routes : List (Route α)

/-- Model of Go splitPath: trim slashes, then split; the root pattern yields zero
segments. -/
def splitPath (p : String) : List String :=
  let t := trimSlash p
  if t = "" then [] else splitSlash t

/-- Model of Go normalizePath: removes one trailing slash unless the path is exactly
the root; an empty result is treated as the root. -/
def normalizePath (p : String) : String :=
  if p = "/" then p
  else
    let p1 := goTrimSfx p "/"
    if p1 = "" then "/" else p1

/-- Segment loop of Go matchRoute: both lists are walked in parallel; an empty
pattern segment matches only an empty path segment, a segment starting with the
colon marker and a non-empty name binds the path segment (overwriting), any other
segment must be equal to the path segment.  Called with lists of equal length;
returns none on length mismatch for totality. -/
def matchSegs : List String → List String → List (String × String) → Option (List (String × String))
  | [], [], params => some params
  | s :: srest, p :: prest, params =>
    if s = "" then
      if p ≠ "" then none else matchSegs srest prest params
    else if strHasPfx s ":" then
      let n := goTrimPfx s ":"
      if n = "" then none
      else matchSegs srest prest (insertStr params n p)
    else if s ≠ p then none
    else matchSegs srest prest params
  | _, _, _ => none

/-- Model of Go matchRoute: the root pattern (zero segments) matches only the literal
root path; otherwise the path is trimmed of slashes, rejected when empty, split on
slashes, rejected on segment-count mismatch, and compared segment by segment.
`some params` models Go's (true, params); `none` models (false, nil). -/
def matchRoute (segs : List String) (path : String) : Option (List (String × String)) :=
  if segs = [] then
    if path = "/" then some [] else none
  else
    let trimmed := trimSlash path
    if trimmed = "" then none
    else
      let parts := splitSlash trimmed
      if parts.length ≠ segs.length then none
      else matchSegs segs parts []

/-! ## Route registration -/

/-- Outcome of a registration call: either the extended router, or a Go panic (the
panic aborts registration, so no router results and the route table is unchanged). -/
inductive RegOutcome (α : Type) where
  | ok (r : Router α)
  | panicked (msg : String)

/-- Model of Go Router.Handle: panics unless the pattern begins with a slash, then
appends a route with upper-cased method and compiled segments. -/
def handle (r : Router α) (method pattern : String) (h : α) : RegOutcome α :=
  if strHasPfx pattern "/" = false then
    .panicked "router: pattern must begin with a slash"
  else
    .ok ⟨r.routes ++
      [{ method := strToUpper method, pattern := pattern,
         segments := splitPath pattern, handler := h }]⟩

/-- Model of Go Router.HandleWith: like `handle` with attached per-route middleware. -/
def handleWith (r : Router α) (method pattern : String) (h : α) (mws : List (α → α)) : RegOutcome α :=
  if strHasPfx pattern "/" = false then
    .panicked "router: pattern must begin with a slash"
  else
    .ok ⟨r.routes ++
      [{ method := strToUpper method, pattern := pattern,
         segments := splitPath pattern, handler := h, middleware := mws }]⟩

/-- Model of Go Router.HandleNamed: panics on an empty name, on a duplicate name, or
on a pattern that does not begin with a slash. -/
def handleNamed (r : Router α) (name method pattern : String) (h : α) : RegOutcome α :=
  if name = "" then .panicked "router: route name cannot be empty"
  else if r.routes.any (fun rt => rt.name == name) then
    .panicked ("router: duplicate route name " ++ name)
  else if strHasPfx pattern "/" = false then
    .panicked "router: pattern must begin with a slash"
  else
    .ok ⟨r.routes ++
      [{ method := strToUpper method, pattern := pattern,
         segments := splitPath pattern, handler := h, name := name }]⟩

/-- Model of Go Router.HandleNamedWith: `handleNamed` with per-route middleware. -/
def handleNamedWith (r : Router α) (name method pattern : String) (h : α)
    (mws : List (α → α)) : RegOutcome α :=
  if name = "" then .panicked "router: route name cannot be empty"
  else if r.routes.any (fun rt => rt.name == name) then
    .panicked ("router: duplicate route name " ++ name)
  else if strHasPfx pattern "/" = false then
    .panicked "router: pattern must begin with a slash"
  else
    .ok ⟨r.routes ++
      [{ method := strToUpper method, pattern := pattern,
         segments := splitPath pattern, handler := h, name := name,
         middleware := mws }]⟩

/-- The seven canonical resource actions (Go interface ResourceController),
as abstract handler values. -/
structure ResourceController (α : Type) where
  Index : α
  New : α
  Create : α
  Show : α
  Edit : α
  Update : α
  Destroy : α

/-- Outcome of Go Router.Resources: a returned error, a propagated registration
panic, or the extended router. -/
inductive ResourcesOutcome (α : Type) where
  | ok (r : Router α)
  | err (msg : String)
  | panicked (msg : String)

/-- Sequencing of registration steps inside `resources`: a registration panic
propagates. -/
def regThen (s : RegOutcome α) (k : Router α → ResourcesOutcome α) : ResourcesOutcome α :=
  match s with
  | .panicked m => .panicked m
  | .ok r => k r

/-- Model of Go Router.Resources: errors on an empty base, trims slashes from the
base, and registers the eight conventional RESTful routes via the verb helpers
(which call Handle). -/
def resources (r : Router α) (base : String) (c : ResourceController α) : ResourcesOutcome α :=
  if base = "" then .err "router: Resources base cannot be empty"
  else
    let b := trimSlash base
    regThen (handle r "GET" ("/" ++ b) c.Index) fun r1 =>
    regThen (handle r1 "GET" ("/" ++ b ++ "/new") c.New) fun r2 =>
    regThen (handle r2 "POST" ("/" ++ b) c.Create) fun r3 =>
    regThen (handle r3 "GET" ("/" ++ b ++ "/:id") c.Show) fun r4 =>
    regThen (handle r4 "GET" ("/" ++ b ++ "/:id/edit") c.Edit) fun r5 =>
    regThen (handle r5 "PUT" ("/" ++ b ++ "/:id") c.Update) fun r6 =>
    regThen (handle r6 "PATCH" ("/" ++ b ++ "/:id") c.Update) fun r7 =>
    regThen (handle r7 "DELETE" ("/" ++ b ++ "/:id") c.Destroy) fun r8 =>
    .ok r8

/-! ## Dispatch -/

/-- Middleware composition from Go ServeHTTP: the loop walks the per-route
middleware from the last index down to 0, wrapping the accumulated handler, which
is exactly a right fold. -/
def composeMW (mws : List (α → α)) (h : α) : α :=
  mws.foldr (fun m acc => m acc) h

/-- Outcome of one dispatch: the composed handler is invoked with the bound
parameters attached to the request context, or the configured MethodNotAllowed
handler (default 405) runs, or the configured NotFound handler (default 404)
runs. -/
inductive DispatchOutcome (α : Type) where
  | invoke (h : α) (params : List (String × String))
  | methodNotAllowed
  | notFound
deriving DecidableEq

/-- Scan loop of Go ServeHTTP over the route table, carrying the methodMismatch
flag: structural match with wrong verb sets the flag and continues; structural
match with the right verb invokes the middleware-composed handler. -/
def serveLoop (rs : List (Route α)) (method path : String) (mismatch : Bool) : DispatchOutcome α :=
  match rs with
  | [] => if mismatch then .methodNotAllowed else .notFound
  | rt :: rest =>
    match matchRoute rt.segments path with
    | none => serveLoop rest method path mismatch
    | some params =>
      if rt.method = method then .invoke (composeMW rt.middleware rt.handler) params
      else serveLoop rest method path true

/-- Model of Go Router.ServeHTTP: normalize the path, then scan the routes in
registration order. -/
def serveHTTP (r : Router α) (method rawPath : String) : DispatchOutcome α :=
  serveLoop r.routes method (normalizePath rawPath) false

/-! ## Reverse URL generation -/

/-- Decides whether one byte must be percent-escaped in a path segment, following
Go net/url shouldEscape with mode encodePathSegment: alphanumerics, dash,
underscore, dot, tilde, and the sub-delims dollar, ampersand, plus, colon, equals,
at-sign stay; slash, semicolon, comma, question mark and everything else escape. -/
def shouldEscapeSeg (b : Nat) : Bool :=
  if ('a'.toNat ≤ b && b ≤ 'z'.toNat) || ('A'.toNat ≤ b && b ≤ 'Z'.toNat)
      || ('0'.toNat ≤ b && b ≤ '9'.toNat) then false
  else if b = '-'.toNat || b = '_'.toNat || b = '.'.toNat || b = '~'.toNat then false
  else if b = '$'.toNat || b = '&'.toNat || b = '+'.toNat || b = ':'.toNat
      || b = '='.toNat || b = '@'.toNat then false
  else true

/-- UTF-8 encoding of one character as byte values. -/
def utf8Bytes (c : Char) : List Nat :=
  let n := c.toNat
  if n < 0x80 then [n]
  else if n < 0x800 then
    [0xC0 ||| (n >>> 6), 0x80 ||| (n &&& 0x3F)]
  else if n < 0x10000 then
    [0xE0 ||| (n >>> 12), 0x80 ||| ((n >>> 6) &&& 0x3F), 0x80 ||| (n &&& 0x3F)]
  else
    [0xF0 ||| (n >>> 18), 0x80 ||| ((n >>> 12) &&& 0x3F),
     0x80 ||| ((n >>> 6) &&& 0x3F), 0x80 ||| (n &&& 0x3F)]

/-- Upper-case hexadecimal digit for a value below 16. -/
def hexDigitU (n : Nat) : Char :=
  if n < 10 then Char.ofNat ('0'.toNat + n) else Char.ofNat ('A'.toNat + n - 10)

/-- Render one byte of a path segment: as itself, or percent-escaped. -/
def escByte (b : Nat) : List Char :=
  if shouldEscapeSeg b then ['%', hexDigitU (b / 16), hexDigitU (b % 16)]
  else [Char.ofNat b]

/-- Model of Go url.PathEscape: escape each UTF-8 byte as needed. -/
def pathEscape (s : String) : String :=
  String.mk (((s.data.map utf8Bytes).flatten.map escByte).flatten)

/-- Segment substitution loop of Go Router.URL: a colon segment looks up its key in
the params and errors (with the key) when absent; a literal segment passes through.
Processes segments in order, so the reported key is the first missing one. -/
def buildParts (params : List (String × String)) : List String → Except String (List String)
  | [] => .ok []
  | s :: rest =>
    if strHasPfx s ":" then
      let key := goTrimPfx s ":"
      match lookupStr params key with
      | none => .error key
      | some v =>
        match buildParts params rest with
        | .error e => .error e
        | .ok parts => .ok (pathEscape v :: parts)
    else
      match buildParts params rest with
      | .error e => .error e
      | .ok parts => .ok (s :: parts)

/-- Route-table scan of Go Router.URL: first route with the requested name wins. -/
def urlLoop (name : String) (params : List (String × String)) : List (Route α) → Except String String
  | [] => .error ("router: unknown route " ++ name)
  | rt :: rest =>
    if rt.name = name then
      if rt.segments = [] then .ok "/"
      else
        match buildParts params rt.segments with
        | .error key => .error ("router: missing param " ++ key ++ " for route " ++ name)
        | .ok parts => .ok ("/" ++ joinSlash parts)
    else urlLoop name params rest

/-- Model of Go Router.URL: reverse URL generation for a named route.  Total: every
failure is an `Except.error`, never a panic. -/
def url (r : Router α) (name : String) (params : List (String × String)) : Except String String :=
  urlLoop name params r.routes

/-! ## Request context parameters (ParamsFromContext / Param) -/

/-- What the context stores under the params key: nothing, a value of another type,
a nil map, or a non-nil map. -/
inductive CtxVal where
  | absent
  | wrongType
  | nilMap
  | strMap (m : List (String × String))

/-- A Go context reference: nil, or a context with some stored value state. -/
inductive GoCtx where
  | nilCtx
  | ctx (v : CtxVal)

/-- A request carries its context. -/
structure GoRequest where
  reqCtx : GoCtx

/-- Model of Go ParamsFromContext: a nil context yields a fresh empty map; a stored
non-nil map[string]string is returned as-is; anything else (absent value, wrong
type, nil map) yields a fresh empty map.  The result is an Option to record Go
map nil-ness: `some` is a non-nil map. -/
def paramsFromContext (c : GoCtx) : Option (List (String × String)) :=
  match c with
  | .nilCtx => some []
  | .ctx v =>
    match v with
    | .strMap m => some m
    | _ => some []

/-- Reading a Go map that may be nil: a nil map reads as empty; a missing key
yields the zero value, the empty string. -/
def goMapGet (m : Option (List (String × String))) (k : String) : String :=
  match m with
  | none => ""
  | some l =>
    match lookupStr l k with
    | none => ""
    | some v => v

/-- Model of Go Param(r, name): index the context params map by name. -/
def param (r : GoRequest) (name : String) : String :=
  goMapGet (paramsFromContext r.reqCtx) name

/-! ## Migration runner data model (src/internal/migrations, ledger version) -/

/-- State of the SQL database as the migration runner observes it: whether the
flow_migrations ledger table exists, its rows (migration base names) in applied
order, and the log of SQL texts whose transactions committed. -/
structure DBState where
  ledgerExists : Bool
  ledger : List String
  execLog : List String
deriving DecidableEq

/-- Model of ensureTable: CREATE TABLE IF NOT EXISTS flow_migrations. -/
def ensureTable (db : DBState) : DBState := { db with ledgerExists := true }

/-- Model of isApplied: SELECT count(1) FROM flow_migrations WHERE name = base. -/
def isApplied (db : DBState) (base : String) : Bool := db.ledger.contains base

/-- Model of markApplied: INSERT INTO flow_migrations(name); the primary key makes
a duplicate insert fail. -/
def markApplied (db : DBState) (base : String) : Except String DBState :=
  if db.ledger.contains base then .error "UNIQUE constraint failed: flow_migrations.name"
  else .ok { db with ledger := db.ledger ++ [base] }

/-- Model of unmarkApplied: DELETE FROM flow_migrations WHERE name = base. -/
def unmarkApplied (db : DBState) (base : String) : DBState :=
  { db with ledger := db.ledger.filter (fun n => n ≠ base) }

/-- Model of execFile's transaction: on success the SQL text commits (appended to
the log); on failure the transaction rolls back leaving the state unchanged.
`execOk` is the oracle deciding whether a given SQL text executes successfully. -/
def execFile (execOk : String → Bool) (db : DBState) (sqlText : String) : Except String DBState :=
  if execOk sqlText then .ok { db with execLog := db.execLog ++ [sqlText] }
  else .error "exec failed"

/-- A migration directory: the files it contains, as (file name, SQL text) pairs.
File names within one directory are unique. -/
def MigDir := List (String × String)

/-- Model of collect: the names of the files in the directory ending with the given
suffix (subdirectories are out of the model: a directory holds only files). -/
def collect (dir : MigDir) (sfx : String) : List String :=
  (dir.map Prod.fst).filter (fun n => strHasSfx n sfx)

/-- Reading a file of the directory by name (os.ReadFile / os.Stat): the content
of the first entry whose name matches, none when the file is absent. -/
def lookupFile : MigDir → String → Option String
  | [], _ => none
  | e :: rest, name => if e.1 = name then some e.2 else lookupFile rest name

/-- Loop of ApplyAll over the sorted up-migration file names: skip applied base
names, otherwise read, execute in a transaction, then mark applied; stop at the
first error.  Returns the final state and the error, if any. -/
def applyLoop (execOk : String → Bool) (dir : MigDir) :
    List String → DBState → DBState × Option String
  | [], db => (db, none)
  | p :: rest, db =>
    let base := goTrimSfx p ".up.sql"
    if isApplied db base then applyLoop execOk dir rest db
    else
      match lookupFile dir p with
      | none => (db, some ("read " ++ p ++ ": file not found"))
      | some sqlText =>
        match execFile execOk db sqlText with
        | .error e => (db, some ("apply " ++ p ++ ": " ++ e))
        | .ok db1 =>
          match markApplied db1 base with
          | .error e => (db1, some ("mark applied " ++ base ++ ": " ++ e))
          | .ok db2 => applyLoop execOk dir rest db2

/-- Model of MigrationRunner.ApplyAll (ledger version): ensure the ledger table,
collect and sort the .up.sql files, then run the apply loop. -/
def applyAll (execOk : String → Bool) (dir : MigDir) (db : DBState) : DBState × Option String :=
  applyLoop execOk dir (sortStrs (collect dir ".up.sql")) (ensureTable db)

/-- Model of MigrationRunner.RollbackLast (ledger version): ensure the ledger
table; take the most recently applied name (ORDER BY applied_at DESC LIMIT 1 —
the last ledger row); error when the ledger is empty; locate the sibling
.down.sql file, error when absent; execute it in a transaction and unmark. -/
def rollbackLast (execOk : String → Bool) (dir : MigDir) (db : DBState) : DBState × Option String :=
  let db0 := ensureTable db
  match db0.ledger.getLast? with
  | none => (db0, some "no applied migrations found")
  | some base =>
    match lookupFile dir (base ++ ".down.sql") with
    | none => (db0, some ("down migration not found for " ++ base))
    | some sqlText =>
      match execFile execOk db0 sqlText with
      | .error e => (db0, some ("rollback " ++ base ++ ".down.sql: " ++ e))
      | .ok db1 => (unmarkApplied db1 base, none)

/-- Model of PendingMigrations: up-migration base names not yet in the ledger, in
file (timestamp) order. -/
def pendingList (dir : MigDir) (db : DBState) : List String :=
  (sortStrs (collect dir ".up.sql")).filter
    (fun p => !(isApplied db (goTrimSfx p ".up.sql")))

/-- SQL texts of the given up-migration files, in order. -/
def contentsOf (dir : MigDir) (ps : List String) : List String :=
  ps.filterMap (lookupFile dir)

/-! ## Specification-side definitions (worded from the spec, for refinement) -/

/-- The first route, in registration order, that both structurally matches the path
and carries the request verb, together with its bound parameters (spec wording of
the dispatch winner). -/
def firstFullMatch (method path : String) : List (Route α) → Option (Route α × List (String × String))
  | [] => none
  | rt :: rest =>
    match matchRoute rt.segments path with
    | some params =>
      if rt.method = method then some (rt, params) else firstFullMatch method path rest
    | none => firstFullMatch method path rest

/-- Whether at least one registered route structurally matches the path,
irrespective of verb (spec wording of the 405-versus-404 distinction). -/
def hasStructuralMatch (path : String) (rs : List (Route α)) : Bool :=
  rs.any fun rt => (matchRoute rt.segments path).isSome

/-- Nested middleware application as the spec words it: composing [m0, m1, ..., mn]
around a terminal handler h yields m0 (m1 (... (mn h))), the first-registered
middleware outermost. -/
def composeSpec : List (α → α) → α → α
  | [], h => h
  | m :: ms, h => m (composeSpec ms h)

/-- Per-segment matching condition, as the code implements it: a segment carrying
the colon marker matches (any single path segment, the empty segment included)
exactly when its identifier is non-empty; every other segment, the empty segment
included, is a literal that must equal the path segment exactly (case-sensitive,
no percent-decoding). -/
def segMatchesP (s p : String) : Prop :=
  (strHasPfx s ":" = true ∧ goTrimPfx s ":" ≠ "") ∨ (strHasPfx s ":" = false ∧ s = p)

/-- Per-segment matching condition exactly as the claim words it: a parameter
segment (colon marker followed by a non-empty identifier) matches any single
NON-EMPTY path segment; a literal segment must be equal. -/
def segMatchesClaim (s p : String) : Prop :=
  (strHasPfx s ":" = true ∧ goTrimPfx s ":" ≠ "" ∧ p ≠ "") ∨ (strHasPfx s ":" = false ∧ s = p)

/-- Option alternative: the first value when present, the second otherwise. -/
def optOr (a b : Option String) : Option String :=
  match a with
  | some v => some v
  | none => b

/-- The value the parameter map must associate to `name` after a successful match:
the path segment captured by the last pattern segment spelled `:name`, when there
is one (a later binding of the same name overwrites an earlier one, as a Go map
write does). -/
def lastBinding : List String → List String → String → Option String
  | s :: srest, p :: prest, name =>
    optOr (lastBinding srest prest name) (if s = ":" ++ name then some p else none)
  | _, _, _ => none

/-! ## Helper lemmas: strings -/

theorem strExt {a b : String} (h : a.data = b.data) : a = b := by
  cases a
  cases b
  exact congrArg String.mk h

theorem listPfx_iff (a b : List Char) : listPfx a b = true ↔ ∃ c, b = a ++ c := by
  induction a generalizing b with
  | nil => simp [listPfx]
  | cons x xs ih =>
    cases b with
    | nil => simp [listPfx]
    | cons y ys =>
      simp only [listPfx, Bool.and_eq_true, beq_iff_eq, ih, List.cons_append, List.cons.injEq]
      constructor
      · rintro ⟨rfl, c, rfl⟩; exact ⟨c, rfl, rfl⟩
      · rintro ⟨c, rfl, rfl⟩; exact ⟨rfl, c, rfl⟩

theorem colon_decomp {s : String} (h : strHasPfx s ":" = true) :
    s = ":" ++ goTrimPfx s ":" := by
  rw [strHasPfx] at h
  obtain ⟨c, hc⟩ := (listPfx_iff _ _).mp h
  apply strExt
  rw [String.data_append, goTrimPfx, if_pos h, hc]
  rfl

theorem colon_append_inj {a b : String} (h : ":" ++ a = ":" ++ b) : a = b := by
  have := congrArg String.data h
  rw [String.data_append, String.data_append] at this
  exact strExt (List.append_cancel_left this)

theorem not_colon_append {s : String} (h : strHasPfx s ":" = false) (t : String) :
    s ≠ ":" ++ t := by
  intro he
  rw [strHasPfx, he, String.data_append] at h
  have : listPfx (":".data) (":".data ++ t.data) = true := (listPfx_iff _ _).mpr ⟨t.data, rfl⟩
  rw [this] at h
  exact Bool.noConfusion h

theorem empty_ne_colon_append (t : String) : ("" : String) ≠ ":" ++ t := by
  intro h
  have := congrArg String.data h
  rw [String.data_append] at this
  exact List.cons_ne_nil _ _ this.symm

theorem optOr_none (a : Option String) : optOr a none = a := by
  cases a <;> rfl

theorem lookupStr_insertStr (m : List (String × String)) (k v k2 : String) :
    lookupStr (insertStr m k v) k2 = if k = k2 then some v else lookupStr m k2 := by
  induction m with
  | nil => by_cases h : k = k2 <;> simp [insertStr, lookupStr, h]
  | cons kv rest ih =>
    obtain ⟨k0, v0⟩ := kv
    by_cases h0 : k0 = k
    · subst h0
      by_cases h2 : k0 = k2 <;> simp [insertStr, lookupStr, h2]
    · by_cases h2 : k0 = k2
      · subst h2
        have hk : ¬(k = k0) := fun hh => h0 hh.symm
        simp [insertStr, lookupStr, h0, hk]
      · simp [insertStr, lookupStr, h0, h2, ih]

/-! ## Helper lemmas: the segment loop -/

theorem matchSegs_isSome (segs parts : List String) (acc : List (String × String)) :
    (matchSegs segs parts acc).isSome = true ↔ List.Forall₂ segMatchesP segs parts := by
  induction segs generalizing parts acc with
  | nil =>
    cases parts with
    | nil => simp [matchSegs]
    | cons p prest => simp [matchSegs]
  | cons s srest ih =>
    cases parts with
    | nil => simp [matchSegs]
    | cons p prest =>
      by_cases h0 : s = ""
      · subst h0
        have hx : strHasPfx "" ":" = false := rfl
        by_cases hp : p = ""
        · subst hp
          simp [matchSegs, ih, List.forall₂_cons, segMatchesP, hx]
        · simp [matchSegs, hp, List.forall₂_cons, segMatchesP, hx, Ne.symm hp]
      · by_cases h1 : strHasPfx s ":" = true
        · by_cases h2 : goTrimPfx s ":" = ""
          · simp [matchSegs, h0, h1, h2, List.forall₂_cons, segMatchesP]
          · simp [matchSegs, h0, h1, h2, ih, List.forall₂_cons, segMatchesP]
        · have h1f : strHasPfx s ":" = false := by
            cases hb : strHasPfx s ":"
            · rfl
            · exact absurd hb h1
          by_cases h3 : s = p
          · subst h3
            simp [matchSegs, h0, h1f, ih, List.forall₂_cons, segMatchesP]
          · simp [matchSegs, h0, h1f, h3, List.forall₂_cons, segMatchesP]

theorem matchSegs_lookup (segs parts : List String) (acc m : List (String × String))
    (h : matchSegs segs parts acc = some m) (name : String) :
    lookupStr m name = optOr (lastBinding segs parts name) (lookupStr acc name) := by
  induction segs generalizing parts acc m with
  | nil =>
    cases parts with
    | nil =>
      simp only [matchSegs, Option.some.injEq] at h
      subst h
      simp [lastBinding, optOr]
    | cons p prest => simp [matchSegs] at h
  | cons s srest ih =>
    cases parts with
    | nil => simp [matchSegs] at h
    | cons p prest =>
      by_cases h0 : s = ""
      · subst h0
        by_cases hp : p = ""
        · subst hp
          simp only [matchSegs, if_pos rfl, ne_eq, not_true_eq_false, if_false] at h
          rw [ih prest acc m h]
          rw [lastBinding, if_neg (empty_ne_colon_append name), optOr_none]
        · simp [matchSegs, hp] at h
      · by_cases h1 : strHasPfx s ":" = true
        · by_cases h2 : goTrimPfx s ":" = ""
          · simp [matchSegs, h0, h1, h2] at h
          · simp only [matchSegs, h0, if_neg h0, h1, if_pos h1, h2, if_neg h2] at h
            rw [ih prest _ m h, lookupStr_insertStr]
            rw [lastBinding]
            by_cases hn : goTrimPfx s ":" = name
            · have hs : s = ":" ++ name := by rw [← hn]; exact colon_decomp h1
              rw [if_pos hn, if_pos hs]
              cases lastBinding srest prest name <;> rfl
            · have hs : s ≠ ":" ++ name := by
                intro he
                apply hn
                have hd := colon_decomp h1
                exact colon_append_inj (hd.symm.trans he)
              rw [if_neg hn, if_neg hs]
              cases lastBinding srest prest name <;> rfl
        · have h1f : strHasPfx s ":" = false := by
            cases hb : strHasPfx s ":"
            · rfl
            · exact absurd hb h1
          by_cases h3 : s = p
          · subst h3
            simp only [matchSegs, if_neg h0, h1f, Bool.false_eq_true, if_false, ne_eq,
              not_true_eq_false, if_neg (fun hh : s ≠ s => hh rfl)] at h
            rw [ih prest acc m h, lastBinding, if_neg (not_colon_append h1f name), optOr_none]
          · simp [matchSegs, h0, h1f, h3] at h

/-! ## Claim theorems: the path matcher -/

/-- C3 (amended): for every non-root segment pattern and a path with a non-empty
trimmed form and the same number of segments, the matcher succeeds exactly when
every literal pattern segment equals the corresponding path segment (case
sensitive, no percent-decoding) and every segment carrying the colon marker has a
non-empty identifier — such a parameter segment matches any single path segment,
the EMPTY path segment included (this is where the claim as stated fails), and a
colon marker with an empty identifier never matches.  On success the returned map
binds exactly the parameter names, each to the path segment captured by the last
pattern segment declaring it. -/
theorem matcher_characterization (segs : List String) (path : String)
    (hseg : segs ≠ []) (hne : trimSlash path ≠ "")
    (hlen : (splitSlash (trimSlash path)).length = segs.length) :
    ((matchRoute segs path).isSome = true ↔
      List.Forall₂ segMatchesP segs (splitSlash (trimSlash path))) ∧
    (∀ m, matchRoute segs path = some m →
      ∀ name, lookupStr m name = lastBinding segs (splitSlash (trimSlash path)) name) := by
  have hmr : matchRoute segs path = matchSegs segs (splitSlash (trimSlash path)) [] := by
    rw [matchRoute, if_neg hseg]
    simp only [if_neg hne, if_neg (not_not_intro hlen)]
  constructor
  · rw [hmr]
    exact matchSegs_isSome segs _ []
  · intro m hm name
    rw [hmr] at hm
    have h2 := matchSegs_lookup segs _ [] m hm name
    rw [h2]
    show optOr _ none = _
    exact optOr_none _

/-- Witness for C3 on the claim's own example: pattern /orgs/:org_id/users/:id
against /orgs/7/users/99 binds org_id to 7. -/
theorem matcher_characterization_witness :
    lookupStr [("org_id", "7"), ("id", "99")] "org_id" =
      lastBinding ["orgs", ":org_id", "users", ":id"]
        (splitSlash (trimSlash "/orgs/7/users/99")) "org_id" :=
  (matcher_characterization ["orgs", ":org_id", "users", ":id"] "/orgs/7/users/99"
    (by decide) (by decide) (by decide)).2 [("org_id", "7"), ("id", "99")] (by decide) "org_id"

/-- C3 counterexample: on pattern /a/:x/b and path /a//b the segment counts are
equal (the path splits as ["a", "", "b"]), yet the matcher SUCCEEDS, binding x to
the empty string — while the claim's own per-segment condition (a parameter
matches only a non-empty path segment) rejects this input, so the claimed
equivalence is false here. -/
theorem matcher_nonempty_counterexample :
    matchRoute ["a", ":x", "b"] "/a//b" = some [("x", "")] ∧
    splitSlash (trimSlash "/a//b") = ["a", "", "b"] ∧
    ¬ List.Forall₂ segMatchesClaim ["a", ":x", "b"] ["a", "", "b"] := by
  refine ⟨by decide, by decide, fun h => ?_⟩
  have h2 := (List.forall₂_cons.mp h).2
  have h3 := (List.forall₂_cons.mp h2).1
  rcases h3 with ⟨hx, hn, hp⟩ | ⟨hx, he⟩
  · exact hp rfl
  · exact absurd hx (by decide)

/-! ## Helper lemmas: registration and Resources -/

theorem strHasPfx_slash_append (s : String) : strHasPfx ("/" ++ s) "/" = true := by
  rw [strHasPfx]
  exact (listPfx_iff _ _).mpr ⟨s.data, by rw [String.data_append]⟩

theorem strHasPfx_slash_append2 (s t : String) : strHasPfx ("/" ++ s ++ t) "/" = true := by
  rw [String.append_assoc]
  exact strHasPfx_slash_append (s ++ t)

theorem handle_ok (r : Router α) (method p : String) (h : α) (hp : strHasPfx p "/" = true) :
    handle r method p h = .ok ⟨r.routes ++
      [{ method := strToUpper method, pattern := p, segments := splitPath p,
         handler := h }]⟩ := by
  simp [handle, hp]

/-- The eight conventional RESTful routes of the claim's table, for a trimmed
base b: GET /b → Index, GET /b/new → New, POST /b → Create, GET /b/:id → Show,
GET /b/:id/edit → Edit, PUT /b/:id → Update, PATCH /b/:id → Update,
DELETE /b/:id → Destroy. -/
def resourceRoutes (b : String) (c : ResourceController α) : List (Route α) :=
  [ { method := "GET", pattern := "/" ++ b, segments := splitPath ("/" ++ b),
      handler := c.Index },
    { method := "GET", pattern := "/" ++ b ++ "/new",
      segments := splitPath ("/" ++ b ++ "/new"), handler := c.New },
    { method := "POST", pattern := "/" ++ b, segments := splitPath ("/" ++ b),
      handler := c.Create },
    { method := "GET", pattern := "/" ++ b ++ "/:id",
      segments := splitPath ("/" ++ b ++ "/:id"), handler := c.Show },
    { method := "GET", pattern := "/" ++ b ++ "/:id/edit",
      segments := splitPath ("/" ++ b ++ "/:id/edit"), handler := c.Edit },
    { method := "PUT", pattern := "/" ++ b ++ "/:id",
      segments := splitPath ("/" ++ b ++ "/:id"), handler := c.Update },
    { method := "PATCH", pattern := "/" ++ b ++ "/:id",
      segments := splitPath ("/" ++ b ++ "/:id"), handler := c.Update },
    { method := "DELETE", pattern := "/" ++ b ++ "/:id",
      segments := splitPath ("/" ++ b ++ "/:id"), handler := c.Destroy } ]

/-! ## Claim theorems: Resources -/

/-- C5: for a non-empty base, Resources trims leading/trailing separators from the
base, registers exactly the eight conventional routes of the claim's table in
order, and returns no error; for an empty base it returns an error and registers
nothing. -/
theorem resources_registers_eight (r : Router α) (base : String) (c : ResourceController α) :
    (base = "" → resources r base c = .err "router: Resources base cannot be empty") ∧
    (base ≠ "" → resources r base c = .ok ⟨r.routes ++ resourceRoutes (trimSlash base) c⟩) := by
  constructor
  · intro h
    rw [resources, if_pos h]
  · intro h
    rw [resources, if_neg h]
    simp only [regThen,
      handle_ok _ _ _ _ (strHasPfx_slash_append (trimSlash base)),
      handle_ok _ _ _ _ (strHasPfx_slash_append2 (trimSlash base) _)]
    simp [resourceRoutes, List.append_assoc,
      show strToUpper "GET" = "GET" from rfl,
      show strToUpper "POST" = "POST" from rfl,
      show strToUpper "PUT" = "PUT" from rfl,
      show strToUpper "PATCH" = "PATCH" from rfl,
      show strToUpper "DELETE" = "DELETE" from rfl]

/-- Demonstration controller over Nat handlers for the Resources witness. -/
def demoController : ResourceController Nat := ⟨1, 2, 3, 4, 5, 6, 7⟩

/-- Witness for C5 at base "users" on an empty router. -/
theorem resources_registers_eight_witness :
    resources (⟨[]⟩ : Router Nat) "users" demoController
      = .ok ⟨([] : List (Route Nat)) ++ resourceRoutes (trimSlash "users") demoController⟩ :=
  (resources_registers_eight (⟨[]⟩ : Router Nat) "users" demoController).2 (by decide)

/-! ## Helper lemmas: reverse URL generation -/

/-- Substitution of one pattern segment as the claim words it: a parameter segment
is replaced by the path-escaped value looked up under its declared name, a literal
segment passes through unchanged. -/
def substSeg (params : List (String × String)) (s : String) : String :=
  if strHasPfx s ":" = true then pathEscape ((lookupStr params (goTrimPfx s ":")).getD "")
  else s

theorem buildParts_ok (params : List (String × String)) (segs : List String)
    (h : ∀ s ∈ segs, strHasPfx s ":" = true →
      (lookupStr params (goTrimPfx s ":")).isSome = true) :
    buildParts params segs = .ok (segs.map (substSeg params)) := by
  induction segs with
  | nil => rfl
  | cons s rest ih =>
    have hrest := ih fun x hx hpx => h x (List.mem_cons_of_mem _ hx) hpx
    by_cases h1 : strHasPfx s ":" = true
    · have hs := h s (List.mem_cons_self _ _) h1
      cases hv : lookupStr params (goTrimPfx s ":") with
      | none => rw [hv] at hs; simp at hs
      | some v =>
        simp only [buildParts, h1, if_pos h1, hv, hrest, List.map_cons]
        rw [substSeg, if_pos h1, hv]
        rfl
    · have h1f : strHasPfx s ":" = false := by
        cases hb : strHasPfx s ":"
        · rfl
        · exact absurd hb h1
      simp only [buildParts, h1f, Bool.false_eq_true, if_false, hrest, List.map_cons]
      rw [substSeg, h1f]
      simp

theorem buildParts_err (params : List (String × String)) (segs : List String)
    (h : ∃ s ∈ segs, strHasPfx s ":" = true ∧ lookupStr params (goTrimPfx s ":") = none) :
    ∃ key, buildParts params segs = .error key := by
  induction segs with
  | nil => simp at h
  | cons s rest ih =>
    by_cases h1 : strHasPfx s ":" = true
    · cases hv : lookupStr params (goTrimPfx s ":") with
      | none => exact ⟨goTrimPfx s ":", by simp [buildParts, h1, hv]⟩
      | some v =>
        have hr : ∃ x ∈ rest, strHasPfx x ":" = true ∧
            lookupStr params (goTrimPfx x ":") = none := by
          rcases h with ⟨x, hx, hpx, hlx⟩
          rcases List.mem_cons.mp hx with rfl | hx2
          · rw [hv] at hlx; exact absurd hlx (by simp)
          · exact ⟨x, hx2, hpx, hlx⟩
        obtain ⟨key, hk⟩ := ih hr
        exact ⟨key, by simp [buildParts, h1, hv, hk]⟩
    · have h1f : strHasPfx s ":" = false := by
        cases hb : strHasPfx s ":"
        · rfl
        · exact absurd hb h1
      have hr : ∃ x ∈ rest, strHasPfx x ":" = true ∧
          lookupStr params (goTrimPfx x ":") = none := by
        rcases h with ⟨x, hx, hpx, hlx⟩
        rcases List.mem_cons.mp hx with rfl | hx2
        · rw [hpx] at h1f; exact absurd h1f (by simp)
        · exact ⟨x, hx2, hpx, hlx⟩
      obtain ⟨key, hk⟩ := ih hr
      exact ⟨key, by simp [buildParts, h1f, hk]⟩

theorem urlLoop_notFound {name : String} (params : List (String × String))
    {rs : List (Route α)} (hf : rs.find? (fun x => x.name == name) = none) :
    urlLoop name params rs = .error ("router: unknown route " ++ name) := by
  induction rs with
  | nil => rfl
  | cons r0 rest ih =>
    have h : ¬(r0.name = name) := by
      intro he
      rw [List.find?_cons_of_pos _ (by simpa using he)] at hf
      exact Option.noConfusion hf
    rw [List.find?_cons_of_neg _ (by simpa using h)] at hf
    rw [urlLoop, if_neg h]
    exact ih hf

theorem urlLoop_found {name : String} (params : List (String × String))
    {rs : List (Route α)} {rt : Route α}
    (hf : rs.find? (fun x => x.name == name) = some rt) :
    urlLoop name params rs =
      if rt.segments = [] then .ok "/"
      else
        match buildParts params rt.segments with
        | .error key => .error ("router: missing param " ++ key ++ " for route " ++ name)
        | .ok parts => .ok ("/" ++ joinSlash parts) := by
  induction rs with
  | nil => exact Option.noConfusion hf
  | cons r0 rest ih =>
    by_cases h : r0.name = name
    · rw [List.find?_cons_of_pos _ (by simpa using h), Option.some.injEq] at hf
      subst hf
      rw [urlLoop, if_pos h]
    · rw [List.find?_cons_of_neg _ (by simpa using h)] at hf
      rw [urlLoop, if_neg h]
      exact ih hf

/-! ## Claim theorems: reverse URL generation -/

/-- C6: URL is total (every failure is a returned error, never a panic); it errors
when no route carries the requested name, errors when some parameter segment of
the found route lacks its key in the params, and otherwise returns the pattern
with every parameter segment replaced by the path-escaped looked-up value, in
pattern order, literals passed through unchanged. -/
theorem url_reverse_contract (r : Router α) (name : String) (params : List (String × String)) :
    ((∀ rt ∈ r.routes, rt.name ≠ name) →
      url r name params = .error ("router: unknown route " ++ name)) ∧
    (∀ rt, r.routes.find? (fun x => x.name == name) = some rt →
      ((∃ s ∈ rt.segments, strHasPfx s ":" = true ∧
          lookupStr params (goTrimPfx s ":") = none) →
        ∃ e, url r name params = .error e) ∧
      ((∀ s ∈ rt.segments, strHasPfx s ":" = true →
          (lookupStr params (goTrimPfx s ":")).isSome = true) →
        url r name params = .ok ("/" ++ joinSlash (rt.segments.map (substSeg params))))) := by
  constructor
  · intro h
    have hf : r.routes.find? (fun rt => rt.name == name) = none := by
      rw [List.find?_eq_none]
      intro x hx
      simp [h x hx]
    exact urlLoop_notFound params hf
  · intro rt hf
    constructor
    · intro hmiss
      rw [url, urlLoop_found params hf]
      by_cases hseg : rt.segments = []
      · rcases hmiss with ⟨s, hs, _⟩
        rw [hseg] at hs
        simp at hs
      · obtain ⟨key, hk⟩ := buildParts_err params rt.segments hmiss
        rw [if_neg hseg, hk]
        exact ⟨_, rfl⟩
    · intro hall
      rw [url, urlLoop_found params hf]
      by_cases hseg : rt.segments = []
      · rw [if_pos hseg, hseg]
        rfl
      · rw [if_neg hseg, buildParts_ok params rt.segments hall]

/-- Demonstration named route and router for the URL witness. -/
def usersShowRoute : Route Nat :=
  { method := "GET", pattern := "/users/:id", segments := ["users", ":id"],
    handler := 3, name := "users_show" }

/-- Router holding only the named demonstration route. -/
def demoNamedRouter : Router Nat := ⟨[usersShowRoute]⟩

/-- Witness for C6: URL("users_show", {id: 7}) substitutes the escaped value. -/
theorem url_reverse_contract_witness :
    url demoNamedRouter "users_show" [("id", "7")]
      = .ok ("/" ++ joinSlash (usersShowRoute.segments.map (substSeg [("id", "7")]))) :=
  ((url_reverse_contract demoNamedRouter "users_show" [("id", "7")]).2
    usersShowRoute rfl).2 (by decide)

/-! ## Helper lemmas: dispatch -/

theorem serveLoop_eq (rs : List (Route α)) (method path : String) (mismatch : Bool) :
    serveLoop rs method path mismatch =
      match firstFullMatch method path rs with
      | some (rt, params) => .invoke (composeMW rt.middleware rt.handler) params
      | none =>
        if mismatch || hasStructuralMatch path rs then .methodNotAllowed else .notFound := by
  induction rs generalizing mismatch with
  | nil => simp [serveLoop, firstFullMatch, hasStructuralMatch]
  | cons rt rest ih =>
    cases hm : matchRoute rt.segments path with
    | none =>
      simp only [serveLoop, firstFullMatch, hasStructuralMatch, List.any_cons, hm,
        Option.isSome_none, Bool.false_or]
      exact ih mismatch
    | some params =>
      by_cases he : rt.method = method
      · simp [serveLoop, firstFullMatch, hm, he]
      · simp only [serveLoop, firstFullMatch, hasStructuralMatch, List.any_cons, hm,
          Option.isSome_some, Bool.true_or, Bool.or_true, if_neg he]
        rw [ih true]
        simp [hasStructuralMatch]

theorem firstFullMatch_sound {rs : List (Route α)} {method path : String}
    {rt : Route α} {ps : List (String × String)}
    (h : firstFullMatch method path rs = some (rt, ps)) :
    rt ∈ rs ∧ rt.method = method ∧ matchRoute rt.segments path = some ps := by
  induction rs with
  | nil => simp [firstFullMatch] at h
  | cons r0 rest ih =>
    cases hm : matchRoute r0.segments path with
    | none =>
      simp only [firstFullMatch, hm] at h
      rcases ih h with ⟨h1, h2, h3⟩
      exact ⟨List.mem_cons_of_mem _ h1, h2, h3⟩
    | some params =>
      by_cases he : r0.method = method
      · simp only [firstFullMatch, hm, if_pos he, Option.some.injEq, Prod.mk.injEq] at h
        obtain ⟨rfl, rfl⟩ := h
        exact ⟨List.mem_cons_self _ _, he, hm⟩
      · simp only [firstFullMatch, hm, if_neg he] at h
        rcases ih h with ⟨h1, h2, h3⟩
        exact ⟨List.mem_cons_of_mem _ h1, h2, h3⟩

theorem composeMW_eq_composeSpec (mws : List (α → α)) (h : α) :
    composeMW mws h = composeSpec mws h := by
  induction mws with
  | nil => rfl
  | cons m ms ih =>
    show m (composeMW ms h) = m (composeSpec ms h)
    rw [ih]

/-! ## Claim theorems: dispatch -/

/-- C1: dispatch scans routes in registration order without short-circuiting on a
structural match with the wrong verb: the first route that both structurally
matches the normalized path and has the request verb is invoked; with at least
one structural match but no verb match the method-not-allowed handler (default
405) is invoked; with no structural match at all the not-found handler (default
404) is invoked. -/
theorem dispatch_scan_order_spec (r : Router α) (method rawPath : String) :
    serveHTTP r method rawPath =
      match firstFullMatch method (normalizePath rawPath) r.routes with
      | some (rt, params) => .invoke (composeMW rt.middleware rt.handler) params
      | none =>
        if hasStructuralMatch (normalizePath rawPath) r.routes then .methodNotAllowed
        else .notFound := by
  have h := serveLoop_eq r.routes method (normalizePath rawPath) false
  simpa [serveHTTP] using h

/-- C4: whenever dispatch invokes a handler, the invoked value is the route's raw
handler wrapped by its middleware in reverse registration order, i.e. the nested
application m0 (m1 (... (mn h))) with the first-registered middleware outermost,
observing the request first. -/
theorem middleware_first_outermost (r : Router α) (method rawPath : String) (g : α)
    (ps : List (String × String)) (h : serveHTTP r method rawPath = .invoke g ps) :
    ∃ rt ∈ r.routes, rt.method = method ∧
      matchRoute rt.segments (normalizePath rawPath) = some ps ∧
      g = composeSpec rt.middleware rt.handler := by
  rw [serveHTTP, serveLoop_eq] at h
  cases hf : firstFullMatch method (normalizePath rawPath) r.routes with
  | none =>
    rw [hf] at h
    by_cases hs : hasStructuralMatch (normalizePath rawPath) r.routes <;> simp [hs] at h
  | some pr =>
    obtain ⟨rt, params⟩ := pr
    rw [hf] at h
    simp only [DispatchOutcome.invoke.injEq] at h
    obtain ⟨hg, hps⟩ := h
    rcases firstFullMatch_sound hf with ⟨h1, h2, h3⟩
    exact ⟨rt, h1, h2, by rw [← hps]; exact h3, by rw [← hg, composeMW_eq_composeSpec]⟩

/-- Demonstration route for the middleware-order witness: two middlewares over a
Nat handler. -/
def mwDemoRoute : Route Nat :=
  { method := "GET", pattern := "/x", segments := ["x"], handler := 5,
    middleware := [fun n => n * 2, fun n => n + 3] }

/-- Router holding only the demonstration route. -/
def mwDemoRouter : Router Nat := ⟨[mwDemoRoute]⟩

/-- Witness for C4 at a concrete router: dispatch yields 2 * (5 + 3) = 16, the
first-registered middleware outermost. -/
theorem middleware_first_outermost_witness :
    (16 : Nat) = composeSpec mwDemoRoute.middleware mwDemoRoute.handler := by
  obtain ⟨rt, hmem, _, _, hg⟩ :=
    middleware_first_outermost mwDemoRouter "GET" "/x" 16 [] (by decide)
  rcases List.mem_singleton.mp hmem with rfl
  exact hg

/-! ## Helper lemmas: path normalization and trailing slashes -/

theorem rdropSlash_append_slash (t : List Char) : rdropSlash (t ++ ['/']) = rdropSlash t := by
  rw [rdropSlash, rdropSlash, List.reverse_append]
  simp [List.dropWhile]

theorem trimSlash_append_slash (t : List Char) :
    trimSlash (String.mk (t ++ ['/'])) = trimSlash (String.mk t) := by
  show String.mk (ldropSlash (rdropSlash (t ++ ['/']))) = String.mk (ldropSlash (rdropSlash t))
  rw [rdropSlash_append_slash]

theorem strHasSfx_slash_decomp {p : String} (h : strHasSfx p "/" = true) :
    ∃ t : List Char, p.data = t ++ ['/'] := by
  rw [strHasSfx] at h
  obtain ⟨c, hc⟩ := (listPfx_iff _ _).mp h
  refine ⟨c.reverse, ?_⟩
  have h2 := congrArg List.reverse hc
  simpa using h2

theorem goTrimSfx_slash {p : String} {t : List Char} (h : p.data = t ++ ['/']) :
    goTrimSfx p "/" = String.mk t := by
  have hc : listPfx (("/" : String).data.reverse) p.data.reverse = true := by
    rw [h]
    simp [listPfx]
  rw [goTrimSfx, if_pos hc, h]
  congr 1
  simp

theorem goTrimSfx_no_sfx {p sfx : String} (h : strHasSfx p sfx = false) :
    goTrimSfx p sfx = p := by
  rw [strHasSfx] at h
  rw [goTrimSfx, if_neg (by simp [h])]

theorem trimSlash_eq_of_data {p : String} {t : List Char} (h : p.data = t ++ ['/']) :
    trimSlash p = trimSlash (String.mk t) := by
  show String.mk (ldropSlash (rdropSlash p.data)) = _
  rw [h, rdropSlash_append_slash]
  rfl

theorem trimSlash_normalizePath (s : String) : trimSlash (normalizePath s) = trimSlash s := by
  by_cases hr : s = "/"
  · rw [normalizePath, if_pos hr]
  · rw [normalizePath, if_neg hr]
    cases hsx : strHasSfx s "/" with
    | false =>
      rw [goTrimSfx_no_sfx hsx]
      by_cases he : s = ""
      · rw [if_pos he, he]
        decide
      · rw [if_neg he]
    | true =>
      obtain ⟨t, ht⟩ := strHasSfx_slash_decomp hsx
      rw [goTrimSfx_slash ht]
      by_cases he : String.mk t = ""
      · exfalso
        apply hr
        apply strExt
        rw [ht]
        have : t = [] := congrArg String.data he
        rw [this]
        rfl
      · rw [if_neg he, trimSlash_eq_of_data ht]

theorem normalizePath_ne_root {s : String} (h : trimSlash s ≠ "") :
    normalizePath s ≠ "/" := by
  intro he
  apply h
  rw [← trimSlash_normalizePath s, he]
  rfl

theorem matchRoute_congr {p q : String} (ht : trimSlash p = trimSlash q)
    (hr : p = "/" ↔ q = "/") (segs : List String) :
    matchRoute segs p = matchRoute segs q := by
  by_cases hs : segs = []
  · rw [matchRoute, matchRoute, if_pos hs, if_pos hs]
    by_cases hp : p = "/"
    · rw [if_pos hp, if_pos (hr.mp hp)]
    · rw [if_neg hp, if_neg (fun hq => hp (hr.mpr hq))]
  · simp only [matchRoute, if_neg hs, ht]

theorem serveLoop_congr {p q : String} (h : ∀ segs, matchRoute segs p = matchRoute segs q)
    (rs : List (Route α)) (method : String) (mismatch : Bool) :
    serveLoop rs method p mismatch = serveLoop rs method q mismatch := by
  induction rs generalizing mismatch with
  | nil => rfl
  | cons rt rest ih =>
    simp only [serveLoop, h rt.segments]
    cases matchRoute rt.segments q with
    | none => exact ih mismatch
    | some params =>
      by_cases he : rt.method = method
      · simp [he]
      · simp only [if_neg he]
        exact ih true

/-! ## Claim theorems: trailing-slash handling -/

/-- C7 (amended): for every request path that ends with a separator and is not
made up solely of separators, dispatch behaves identically to dispatching the
same path without the trailing separator (same route selected, same parameters
bound, same 404/405 outcome); an empty normalized path is treated as the root.
(The restriction is forced: normalization strips only ONE trailing separator, so
a path of two or more separators only — e.g. /// — normalizes to a non-root path
and no longer matches a root route, unlike the path with its separator removed.) -/
theorem trailing_slash_dispatch_equiv (r : Router α) (method p : String)
    (h1 : strHasSfx p "/" = true) (h2 : trimSlash p ≠ "") :
    serveHTTP r method p = serveHTTP r method (goTrimSfx p "/") ∧
    normalizePath "" = "/" := by
  refine ⟨?_, rfl⟩
  obtain ⟨t, ht⟩ := strHasSfx_slash_decomp h1
  have hq : goTrimSfx p "/" = String.mk t := goTrimSfx_slash ht
  have htrim : trimSlash p = trimSlash (String.mk t) := trimSlash_eq_of_data ht
  have h2q : trimSlash (String.mk t) ≠ "" := fun he => h2 (htrim.trans he)
  have hp_root : p ≠ "/" := fun he => h2 (by rw [he]; rfl)
  have hq_root : String.mk t ≠ "/" := fun he => h2q (by rw [he]; rfl)
  have hq_empty : String.mk t ≠ "" := fun he => h2q (by rw [he]; rfl)
  have hnp : normalizePath p = String.mk t := by
    rw [normalizePath, if_neg hp_root]
    simp only [hq]
    rw [if_neg hq_empty]
  rw [serveHTTP, serveHTTP, hq, hnp]
  exact serveLoop_congr
    (fun segs => matchRoute_congr (trimSlash_normalizePath (String.mk t)).symm
      ⟨fun hx => absurd hx hq_root,
       fun hx => absurd hx (normalizePath_ne_root h2q)⟩ segs)
    r.routes method false

/-- Demonstration router with a parameterized route for the C7 witness. -/
def abDemoRouter : Router Nat :=
  ⟨[{ method := "GET", pattern := "/a/:x", segments := ["a", ":x"], handler := 1 }]⟩

/-- Witness for C7: /a/7/ dispatches exactly like /a/7. -/
theorem trailing_slash_dispatch_equiv_witness :
    serveHTTP abDemoRouter "GET" "/a/7/" = serveHTTP abDemoRouter "GET" (goTrimSfx "/a/7/" "/") ∧
    normalizePath "" = "/" :=
  trailing_slash_dispatch_equiv abDemoRouter "GET" "/a/7/" (by decide) (by decide)

/-- Demonstration router holding only a root route, for the C7 counterexample. -/
def rootDemoRouter : Router Nat :=
  ⟨[{ method := "GET", pattern := "/", segments := [], handler := 0 }]⟩

/-- C7 counterexample: /// ends with a separator and is not the root, yet
dispatching it (404: normalization yields //, which matches nothing) differs from
dispatching // — the same path without the trailing separator — which invokes the
root route.  So the claim as stated fails for paths made of separators only. -/
theorem trailing_slash_counterexample :
    strHasSfx "///" "/" = true ∧ ("///" : String) ≠ "/" ∧
    goTrimSfx "///" "/" = "//" ∧
    serveHTTP rootDemoRouter "GET" "///" = .notFound ∧
    serveHTTP rootDemoRouter "GET" "//" = .invoke 0 [] :=
  ⟨by decide, by decide, by decide, by decide, by decide⟩

/-! ## Claim theorems: registration failures -/

/-- Whether a registration outcome is a Go panic (the route table is not extended:
no router value results). -/
def isPanicked : RegOutcome α → Prop
  | .panicked _ => True
  | .ok _ => False

/-- C9: registering a route under a name already present in the route table (via
HandleNamed or HandleNamedWith) panics at construction time, producing no
extended router; likewise every registration whose pattern does not begin with
the path separator panics. -/
theorem registration_construction_fatal (r : Router α) (name method pattern : String)
    (h : α) (mws : List (α → α)) :
    ((∃ rt ∈ r.routes, rt.name = name) →
      isPanicked (handleNamed r name method pattern h) ∧
      isPanicked (handleNamedWith r name method pattern h mws)) ∧
    (strHasPfx pattern "/" = false →
      isPanicked (handle r method pattern h) ∧
      isPanicked (handleWith r method pattern h mws) ∧
      isPanicked (handleNamed r name method pattern h) ∧
      isPanicked (handleNamedWith r name method pattern h mws)) := by
  have hnamed : ∀ hdup : r.routes.any (fun x => x.name == name) = true,
      isPanicked (handleNamed r name method pattern h) ∧
      isPanicked (handleNamedWith r name method pattern h mws) := by
    intro hdup
    constructor
    · rw [handleNamed]
      by_cases he : name = ""
      · rw [if_pos he]; trivial
      · rw [if_neg he, if_pos hdup]; trivial
    · rw [handleNamedWith]
      by_cases he : name = ""
      · rw [if_pos he]; trivial
      · rw [if_neg he, if_pos hdup]; trivial
  constructor
  · rintro ⟨rt, hrt, hname⟩
    exact hnamed (List.any_eq_true.mpr ⟨rt, hrt, by simpa using hname⟩)
  · intro hp
    refine ⟨by rw [handle, if_pos hp]; trivial, by rw [handleWith, if_pos hp]; trivial, ?_, ?_⟩
    · rw [handleNamed]
      by_cases he : name = ""
      · rw [if_pos he]; trivial
      · rw [if_neg he]
        by_cases hd : r.routes.any (fun x => x.name == name) = true
        · rw [if_pos hd]; trivial
        · rw [if_neg hd, if_pos hp]; trivial
    · rw [handleNamedWith]
      by_cases he : name = ""
      · rw [if_pos he]; trivial
      · rw [if_neg he]
        by_cases hd : r.routes.any (fun x => x.name == name) = true
        · rw [if_pos hd]; trivial
        · rw [if_neg hd, if_pos hp]; trivial

/-- Router already holding a route named dup, for the C9 witness. -/
def dupDemoRouter : Router Nat :=
  ⟨[{ method := "GET", pattern := "/a", segments := ["a"], handler := 0, name := "dup" }]⟩

/-- Witness for C9: re-registering the name dup panics, and registering the
slash-less pattern nope panics. -/
theorem registration_construction_fatal_witness :
    (isPanicked (handleNamed dupDemoRouter "dup" "GET" "/b" (1 : Nat)) ∧
     isPanicked (handleNamedWith dupDemoRouter "dup" "GET" "/b" (1 : Nat) [])) ∧
    (isPanicked (handle dupDemoRouter "GET" "nope" (1 : Nat)) ∧
     isPanicked (handleWith dupDemoRouter "GET" "nope" (1 : Nat) []) ∧
     isPanicked (handleNamed dupDemoRouter "fresh" "GET" "nope" (1 : Nat)) ∧
     isPanicked (handleNamedWith dupDemoRouter "fresh" "GET" "nope" (1 : Nat) [])) :=
  ⟨(registration_construction_fatal dupDemoRouter "dup" "GET" "/b" 1 []).1
      ⟨{ method := "GET", pattern := "/a", segments := ["a"], handler := 0, name := "dup" },
        List.mem_singleton.mpr rfl, rfl⟩,
   (registration_construction_fatal dupDemoRouter "fresh" "GET" "nope" 1 []).2 (by decide)⟩

/-! ## Claim theorems: context parameters -/

/-- C10: ParamsFromContext returns a non-nil (possibly empty) map for every
context, the nil context included, and Param yields the empty string for any
unbound name — the public parameter-reading interface never observes nil and,
being total, never panics. -/
theorem params_public_interface_safe (c : GoCtx) (req : GoRequest) (name : String) :
    (∃ m, paramsFromContext c = some m) ∧
    (lookupStr ((paramsFromContext req.reqCtx).getD []) name = none → param req name = "") := by
  constructor
  · cases c with
    | nilCtx => exact ⟨[], rfl⟩
    | ctx v => cases v <;> exact ⟨_, rfl⟩
  · intro h
    obtain ⟨rc⟩ := req
    cases rc with
    | nilCtx =>
      simp only [paramsFromContext, Option.getD_some] at h
      simp [param, goMapGet, paramsFromContext, h]
    | ctx v =>
      cases v <;>
        (simp only [paramsFromContext, Option.getD_some] at h;
         simp [param, goMapGet, paramsFromContext, h])

/-- Witness for C10: a context carrying a nil map reads as empty, and an unbound
name yields the empty string. -/
theorem params_public_interface_safe_witness :
    param (GoRequest.mk (GoCtx.ctx CtxVal.nilMap)) "id" = "" :=
  (params_public_interface_safe (GoCtx.ctx CtxVal.nilMap)
    (GoRequest.mk (GoCtx.ctx CtxVal.nilMap)) "id").2 (by decide)

/-! ## Helper lemmas: sorting -/

theorem insertSorted_perm (x : String) (l : List String) :
    (insertSorted x l).Perm (x :: l) := by
  induction l with
  | nil => exact List.Perm.refl _
  | cons y ys ih =>
    rw [insertSorted]
    by_cases h : strLe x y = true
    · rw [if_pos h]
    · rw [if_neg h]
      exact (ih.cons y).trans (List.Perm.swap x y ys)

theorem sortStrs_perm (l : List String) : (sortStrs l).Perm l := by
  induction l with
  | nil => exact List.Perm.refl _
  | cons x xs ih => exact (insertSorted_perm x (sortStrs xs)).trans (ih.cons x)

/-! ## Helper lemmas: suffixes and the migration directory -/

theorem strHasSfx_recon {p sfx : String} (h : strHasSfx p sfx = true) :
    goTrimSfx p sfx ++ sfx = p := by
  have h2 : listPfx sfx.data.reverse p.data.reverse = true := h
  obtain ⟨c, hc⟩ := (listPfx_iff _ _).mp h2
  have hdata : p.data = c.reverse ++ sfx.data := by
    have h3 := congrArg List.reverse hc
    simpa using h3
  apply strExt
  rw [String.data_append, goTrimSfx, if_pos h2]
  show (p.data.take (p.data.length - sfx.data.length)) ++ sfx.data = p.data
  rw [hdata]
  congr 1
  rw [List.length_append, Nat.add_sub_cancel]
  exact List.take_left _ _

theorem goTrimSfx_inj {p1 p2 sfx : String} (h1 : strHasSfx p1 sfx = true)
    (h2 : strHasSfx p2 sfx = true) (he : goTrimSfx p1 sfx = goTrimSfx p2 sfx) :
    p1 = p2 := by
  rw [← strHasSfx_recon h1, ← strHasSfx_recon h2, he]

theorem collect_sfx {dir : MigDir} {sfx p : String} (h : p ∈ collect dir sfx) :
    strHasSfx p sfx = true :=
  (List.mem_filter.mp h).2

theorem collect_mem_names {dir : MigDir} {sfx p : String} (h : p ∈ collect dir sfx) :
    p ∈ dir.map Prod.fst :=
  (List.mem_filter.mp h).1

theorem lookupFile_isSome {dir : MigDir} {p : String} (h : p ∈ dir.map Prod.fst) :
    ∃ s, lookupFile dir p = some s := by
  induction dir with
  | nil => simp at h
  | cons e rest ih =>
    rw [lookupFile]
    by_cases he : e.1 = p
    · rw [if_pos he]
      exact ⟨e.2, rfl⟩
    · rw [if_neg he]
      rw [List.map_cons] at h
      rcases List.mem_cons.mp h with h1 | h2
      · exact absurd h1.symm he
      · exact ih h2

theorem sorted_collect_mem_names {dir : MigDir} {sfx p : String}
    (h : p ∈ sortStrs (collect dir sfx)) : p ∈ dir.map Prod.fst :=
  collect_mem_names ((sortStrs_perm _).mem_iff.mp h)

theorem sorted_collect_bases_nodup {dir : MigDir} (hdir : (dir.map Prod.fst).Nodup)
    (sfx : String) :
    ((sortStrs (collect dir sfx)).map (fun p => goTrimSfx p sfx)).Nodup := by
  have h1 : (collect dir sfx).Nodup := hdir.filter _
  have h2 : (sortStrs (collect dir sfx)).Nodup := ((sortStrs_perm _).nodup_iff).mpr h1
  refine h2.map_on ?_
  intro x hx y hy hxy
  exact goTrimSfx_inj (collect_sfx ((sortStrs_perm _).mem_iff.mp hx))
    (collect_sfx ((sortStrs_perm _).mem_iff.mp hy)) hxy

theorem contains_append_single_ne {l : List String} {x y : String} (h : y ≠ x) :
    (l ++ [x]).contains y = l.contains y := by
  simp only [List.contains_eq_any_beq, List.any_append, List.any_cons, List.any_nil]
  simp [h]

/-! ## Helper lemmas: the apply loop -/

theorem execFile_ok {execOk : String → Bool} {s : String} (h : execOk s = true)
    (db : DBState) :
    execFile execOk db s = .ok { db with execLog := db.execLog ++ [s] } := by
  simp [execFile, h]

theorem execFile_fail {execOk : String → Bool} {s : String} (h : execOk s = false)
    (db : DBState) :
    execFile execOk db s = .error "exec failed" := by
  simp [execFile, h]

theorem markApplied_ok {db : DBState} {base : String}
    (h : db.ledger.contains base = false) :
    markApplied db base = .ok { db with ledger := db.ledger ++ [base] } := by
  have hn : ¬(db.ledger.contains base = true) := fun hc => by
    rw [h] at hc
    exact Bool.noConfusion hc
  rw [markApplied, if_neg hn]

theorem applyLoop_ok {execOk : String → Bool} (hok : ∀ s, execOk s = true)
    (dir : MigDir) (ps : List String) (db : DBState)
    (hmem : ∀ p ∈ ps, p ∈ dir.map Prod.fst)
    (hnd : (ps.map (fun p => goTrimSfx p ".up.sql")).Nodup) :
    applyLoop execOk dir ps db =
      ({ ledgerExists := db.ledgerExists,
         ledger := db.ledger ++
           (ps.filter (fun p => !(isApplied db (goTrimSfx p ".up.sql")))).map
             (fun p => goTrimSfx p ".up.sql"),
         execLog := db.execLog ++
           contentsOf dir (ps.filter (fun p => !(isApplied db (goTrimSfx p ".up.sql")))) },
       none) := by
  induction ps generalizing db with
  | nil => simp [applyLoop, contentsOf]
  | cons p rest ih =>
    have hnd2 := List.nodup_cons.mp
      (show ((fun q => goTrimSfx q ".up.sql") p ::
          rest.map (fun q => goTrimSfx q ".up.sql")).Nodup from hnd)
    have hmemr : ∀ q ∈ rest, q ∈ dir.map Prod.fst :=
      fun q hq => hmem q (List.mem_cons_of_mem _ hq)
    by_cases hap : isApplied db (goTrimSfx p ".up.sql") = true
    · simp only [applyLoop, if_pos hap]
      rw [ih db hmemr hnd2.2]
      simp [List.filter_cons, hap]
    · have hapf : isApplied db (goTrimSfx p ".up.sql") = false := by
        simpa using hap
      obtain ⟨s, hs⟩ := lookupFile_isSome (hmem p (List.mem_cons_self _ _))
      have hapf : isApplied db (goTrimSfx p ".up.sql") = false := by simpa using hap
      have hmk : ({ db with execLog := db.execLog ++ [s] } : DBState).ledger.contains
          (goTrimSfx p ".up.sql") = false := hapf
      simp only [applyLoop, if_neg hap, hs, execFile_ok (hok s), markApplied_ok hmk]
      rw [ih _ hmemr hnd2.2]
      have hfc : rest.filter (fun q =>
            !(isApplied ⟨db.ledgerExists, db.ledger ++ [goTrimSfx p ".up.sql"],
                db.execLog ++ [s]⟩ (goTrimSfx q ".up.sql")))
          = rest.filter (fun q => !(isApplied db (goTrimSfx q ".up.sql"))) := by
        apply List.filter_congr
        intro q hq
        have hne : goTrimSfx q ".up.sql" ≠ goTrimSfx p ".up.sql" := by
          intro he
          exact hnd2.1 (by
            simpa [he] using List.mem_map_of_mem (fun r => goTrimSfx r ".up.sql") hq)
        simp only [isApplied]
        rw [contains_append_single_ne hne]
      rw [hfc]
      simp [List.filter_cons, hapf, contentsOf, List.filterMap_cons, hs, List.append_assoc]

theorem applyLoop_flag (execOk : String → Bool) (dir : MigDir) (ps : List String)
    (db : DBState) :
    ((applyLoop execOk dir ps db).1).ledgerExists = db.ledgerExists := by
  induction ps generalizing db with
  | nil => rfl
  | cons p rest ih =>
    simp only [applyLoop]
    by_cases hap : isApplied db (goTrimSfx p ".up.sql") = true
    · rw [if_pos hap]
      exact ih db
    · rw [if_neg hap]
      cases hlf : lookupFile dir p with
      | none => rfl
      | some s =>
        by_cases hex : execOk s = true
        · have hapf : isApplied db (goTrimSfx p ".up.sql") = false := by simpa using hap
          have hmk : ({ db with execLog := db.execLog ++ [s] } : DBState).ledger.contains
              (goTrimSfx p ".up.sql") = false := hapf
          simp only [execFile_ok hex, markApplied_ok hmk]
          exact ih _
        · have hexf : execOk s = false := by simpa using hex
          simp only [execFile_fail hexf]

theorem applyLoop_nodup (execOk : String → Bool) (dir : MigDir) (ps : List String)
    (db : DBState) (h : db.ledger.Nodup) :
    ((applyLoop execOk dir ps db).1).ledger.Nodup := by
  induction ps generalizing db with
  | nil => exact h
  | cons p rest ih =>
    simp only [applyLoop]
    by_cases hap : isApplied db (goTrimSfx p ".up.sql") = true
    · rw [if_pos hap]
      exact ih db h
    · rw [if_neg hap]
      cases hlf : lookupFile dir p with
      | none => exact h
      | some s =>
        by_cases hex : execOk s = true
        · have hapf : isApplied db (goTrimSfx p ".up.sql") = false := by simpa using hap
          have hmk : ({ db with execLog := db.execLog ++ [s] } : DBState).ledger.contains
              (goTrimSfx p ".up.sql") = false := hapf
          simp only [execFile_ok hex, markApplied_ok hmk]
          apply ih
          have hnotin : goTrimSfx p ".up.sql" ∉ db.ledger :=
            fun hm => hap (List.elem_iff.mpr hm)
          simp [List.nodup_append, h, hnotin]
        · have hexf : execOk s = false := by simpa using hex
          simp only [execFile_fail hexf]
          exact h

theorem applyLoop_mono (execOk : String → Bool) (dir : MigDir) (ps : List String)
    (db : DBState) :
    ∀ b ∈ db.ledger, b ∈ ((applyLoop execOk dir ps db).1).ledger := by
  induction ps generalizing db with
  | nil => exact fun b hb => hb
  | cons p rest ih =>
    intro b hb
    simp only [applyLoop]
    by_cases hap : isApplied db (goTrimSfx p ".up.sql") = true
    · rw [if_pos hap]
      exact ih db b hb
    · rw [if_neg hap]
      cases hlf : lookupFile dir p with
      | none => exact hb
      | some s =>
        by_cases hex : execOk s = true
        · have hapf : isApplied db (goTrimSfx p ".up.sql") = false := by simpa using hap
          have hmk : ({ db with execLog := db.execLog ++ [s] } : DBState).ledger.contains
              (goTrimSfx p ".up.sql") = false := hapf
          simp only [execFile_ok hex, markApplied_ok hmk]
          exact ih _ b (List.mem_append_left _ hb)
        · have hexf : execOk s = false := by simpa using hex
          simp only [execFile_fail hexf]
          exact hb

theorem applyLoop_complete (execOk : String → Bool) (dir : MigDir) (ps : List String)
    (db : DBState) (h : (applyLoop execOk dir ps db).2 = none) :
    ∀ p ∈ ps, goTrimSfx p ".up.sql" ∈ ((applyLoop execOk dir ps db).1).ledger := by
  induction ps generalizing db with
  | nil => intro p hp; simp at hp
  | cons p rest ih =>
    intro q hq
    rw [applyLoop] at h ⊢
    by_cases hap : isApplied db (goTrimSfx p ".up.sql") = true
    · rw [if_pos hap] at h ⊢
      rcases List.mem_cons.mp hq with rfl | hq2
      · exact applyLoop_mono execOk dir rest db _ (List.elem_iff.mp hap)
      · exact ih db h q hq2
    · rw [if_neg hap] at h ⊢
      cases hlf : lookupFile dir p with
      | none =>
        rw [hlf] at h
        exact absurd h (fun hc => Option.noConfusion hc)
      | some s =>
        rw [hlf] at h
        by_cases hex : execOk s = true
        · have hapf : isApplied db (goTrimSfx p ".up.sql") = false := by simpa using hap
          have hmk : ({ db with execLog := db.execLog ++ [s] } : DBState).ledger.contains
              (goTrimSfx p ".up.sql") = false := hapf
          simp only [execFile_ok hex, markApplied_ok hmk] at h ⊢
          rcases List.mem_cons.mp hq with rfl | hq2
          · refine applyLoop_mono execOk dir rest _ _ ?_
            show goTrimSfx q ".up.sql" ∈ _ ++ [goTrimSfx q ".up.sql"]
            exact List.mem_append_right _ (List.mem_singleton.mpr rfl)
          · exact ih _ h q hq2
        · have hexf : execOk s = false := by simpa using hex
          simp only [execFile_fail hexf] at h
          exact absurd h (fun hc => Option.noConfusion hc)

/-! ## Claim theorems: migrations -/

/-- C2: after running ApplyAll under any execution oracle (so the first run may
have stopped at a failure) and then again with all SQL succeeding, the second run
returns no error and executes exactly the up-SQL of the migrations still
unapplied after the first run (resuming from the pending ones, in file order,
each once); the ledger then holds exactly one row per up-migration base name; and
when the first run succeeded, the second run is a strict no-op (same state, no
SQL executed, every recorded base name skipped).  With the oracle all-true the
first run also succeeds and executes each pending up-SQL exactly once, giving the
claim's two successive successful calls. -/
theorem applyAll_idempotent_retryable (dir : MigDir) (db : DBState)
    (execOk : String → Bool)
    (hdir : (dir.map Prod.fst).Nodup) (hled : db.ledger.Nodup) :
    ((applyAll (fun _ => true) dir ((applyAll execOk dir db).1)).2 = none) ∧
    ((applyAll (fun _ => true) dir ((applyAll execOk dir db).1)).1.execLog
        = ((applyAll execOk dir db).1).execLog
          ++ contentsOf dir (pendingList dir ((applyAll execOk dir db).1))) ∧
    (∀ p ∈ collect dir ".up.sql",
      List.count (goTrimSfx p ".up.sql")
        ((applyAll (fun _ => true) dir ((applyAll execOk dir db).1)).1.ledger) = 1) ∧
    ((applyAll execOk dir db).2 = none →
      (applyAll (fun _ => true) dir ((applyAll execOk dir db).1)).1
        = (applyAll execOk dir db).1) ∧
    ((∀ s, execOk s = true) →
      (applyAll execOk dir db).2 = none ∧
      ((applyAll execOk dir db).1).execLog
        = db.execLog ++ contentsOf dir (pendingList dir db)) := by
  have hmem : ∀ p ∈ sortStrs (collect dir ".up.sql"), p ∈ dir.map Prod.fst :=
    fun p hp => sorted_collect_mem_names hp
  have hnd : ((sortStrs (collect dir ".up.sql")).map (fun p => goTrimSfx p ".up.sql")).Nodup :=
    sorted_collect_bases_nodup hdir _
  have htrue : ∀ s : String, (fun _ : String => true) s = true := fun s => rfl
  simp only [applyAll]
  generalize hdb1 : applyLoop execOk dir (sortStrs (collect dir ".up.sql")) (ensureTable db) = r1
  obtain ⟨db1, e1⟩ := r1
  have hflag1 : db1.ledgerExists = true := by
    have h := applyLoop_flag execOk dir (sortStrs (collect dir ".up.sql")) (ensureTable db)
    rw [hdb1] at h
    exact h
  have hled1 : db1.ledger.Nodup := by
    have h := applyLoop_nodup execOk dir (sortStrs (collect dir ".up.sql")) (ensureTable db) hled
    rw [hdb1] at h
    exact h
  have hcomplete : e1 = none → ∀ p ∈ sortStrs (collect dir ".up.sql"),
      goTrimSfx p ".up.sql" ∈ db1.ledger := by
    intro h1 p hp
    have h := applyLoop_complete execOk dir (sortStrs (collect dir ".up.sql")) (ensureTable db)
      (by rw [hdb1]; exact h1) p hp
    rw [hdb1] at h
    exact h
  have hrun2 := applyLoop_ok htrue dir (sortStrs (collect dir ".up.sql")) (ensureTable db1)
    hmem hnd
  have hnod2 : ((applyLoop (fun _ => true) dir (sortStrs (collect dir ".up.sql"))
      (ensureTable db1)).1).ledger.Nodup :=
    applyLoop_nodup _ dir _ (ensureTable db1) hled1
  refine ⟨?_, ?_, ?_, ?_, ?_⟩
  · rw [hrun2]
  · rw [hrun2]
    rfl
  · intro p hp
    have hmemL : goTrimSfx p ".up.sql" ∈
        ((applyLoop (fun _ => true) dir (sortStrs (collect dir ".up.sql"))
          (ensureTable db1)).1).ledger := by
      rw [hrun2]
      by_cases hap1 : isApplied db1 (goTrimSfx p ".up.sql") = true
      · exact List.mem_append_left _ (List.elem_iff.mp hap1)
      · have hapf1 : isApplied db1 (goTrimSfx p ".up.sql") = false := by simpa using hap1
        have hpps : p ∈ sortStrs (collect dir ".up.sql") := (sortStrs_perm _).mem_iff.mpr hp
        have hpf : p ∈ (sortStrs (collect dir ".up.sql")).filter
            (fun q => !(isApplied (ensureTable db1) (goTrimSfx q ".up.sql"))) := by
          refine List.mem_filter.mpr ⟨hpps, ?_⟩
          show (!(isApplied db1 (goTrimSfx p ".up.sql"))) = true
          rw [hapf1]
          rfl
        exact List.mem_append_right _ (List.mem_map_of_mem _ hpf)
    exact List.count_eq_one_of_mem hnod2 hmemL
  · intro h1
    have hpend : (sortStrs (collect dir ".up.sql")).filter
        (fun q => !(isApplied (ensureTable db1) (goTrimSfx q ".up.sql"))) = [] := by
      refine List.filter_eq_nil_iff.mpr ?_
      intro q hq
      have hbc : isApplied db1 (goTrimSfx q ".up.sql") = true :=
        List.elem_iff.mpr (hcomplete h1 q hq)
      show ¬((!(isApplied db1 (goTrimSfx q ".up.sql"))) = true)
      rw [hbc]
      exact fun hc => Bool.noConfusion hc
    rw [hrun2, hpend]
    show (⟨true, db1.ledger ++ List.map _ [], db1.execLog ++ contentsOf dir []⟩ : DBState) = db1
    rw [List.map_nil, List.append_nil, ← hflag1]
    show (⟨db1.ledgerExists, db1.ledger, db1.execLog ++ []⟩ : DBState) = db1
    rw [List.append_nil]
  · intro hok
    have hrun1 := applyLoop_ok hok dir (sortStrs (collect dir ".up.sql")) (ensureTable db)
      hmem hnd
    have hpair := hdb1.symm.trans hrun1
    have he1 : e1 = none := congrArg Prod.snd hpair
    have hlog : db1.execLog = db.execLog
        ++ contentsOf dir (pendingList dir db) :=
      congrArg (fun x => x.1.execLog) hpair
    exact ⟨he1, hlog⟩

/-- Demonstration migration directory for the migration witnesses: the concrete
scenario of the spec. -/
def demoMigDir : MigDir :=
  [("20260101000000_create_tests.up.sql", "CREATE TABLE tests (id INTEGER PRIMARY KEY);"),
   ("20260101000000_create_tests.down.sql", "DROP TABLE IF EXISTS tests;")]

/-- Witness for C2: after two successive successful ApplyAll runs on a fresh
database the ledger holds exactly one row for the single migration. -/
theorem applyAll_idempotent_retryable_witness :
    List.count (goTrimSfx "20260101000000_create_tests.up.sql" ".up.sql")
      ((applyAll (fun _ => true) demoMigDir
          ((applyAll (fun _ => true) demoMigDir ⟨false, [], []⟩).1)).1.ledger) = 1 :=
  (applyAll_idempotent_retryable demoMigDir ⟨false, [], []⟩ (fun _ => true)
    (by decide) (by decide)).2.2.1 "20260101000000_create_tests.up.sql" (by decide)

/-- C8: with an empty ledger, RollbackLast returns the explicit nothing-to-rollback
error, executes no migration SQL (the exec log is unchanged) and leaves the
ledger unchanged (only the idempotent ledger-table creation runs); when the
most-recently-applied migration's sibling .down.sql file is absent from the
directory, it returns the explicit missing-down-migration error, again executing
no SQL and unmarking nothing. -/
theorem rollbackLast_guards (execOk : String → Bool) (dir : MigDir) (db : DBState) :
    (db.ledger = [] →
      rollbackLast execOk dir db = (ensureTable db, some "no applied migrations found") ∧
      (rollbackLast execOk dir db).1.ledger = db.ledger ∧
      (rollbackLast execOk dir db).1.execLog = db.execLog) ∧
    (∀ base, db.ledger.getLast? = some base →
      lookupFile dir (base ++ ".down.sql") = none →
      rollbackLast execOk dir db
          = (ensureTable db, some ("down migration not found for " ++ base)) ∧
      (rollbackLast execOk dir db).1.ledger = db.ledger ∧
      (rollbackLast execOk dir db).1.execLog = db.execLog) := by
  constructor
  · intro h
    have he : rollbackLast execOk dir db
        = (ensureTable db, some "no applied migrations found") := by
      simp only [rollbackLast, ensureTable, h, List.getLast?_nil]
    exact ⟨he, by rw [he]; rfl, by rw [he]; rfl⟩
  · intro base hlast hdown
    have he : rollbackLast execOk dir db
        = (ensureTable db, some ("down migration not found for " ++ base)) := by
      simp only [rollbackLast, ensureTable, hlast, hdown]
    exact ⟨he, by rw [he]; rfl, by rw [he]; rfl⟩

/-- Witness for C8: a fresh empty database refuses rollback, and a ledger entry
without its .down.sql file yields the missing-down-migration error. -/
theorem rollbackLast_guards_witness :
    rollbackLast (fun _ => true) ([] : MigDir) ⟨false, [], []⟩
        = (ensureTable ⟨false, [], []⟩, some "no applied migrations found") ∧
    rollbackLast (fun _ => true) ([] : MigDir) ⟨false, ["m1"], []⟩
        = (ensureTable ⟨false, ["m1"], []⟩, some ("down migration not found for " ++ "m1")) :=
  ⟨((rollbackLast_guards (fun _ => true) ([] : MigDir) ⟨false, [], []⟩).1 rfl).1,
   ((rollbackLast_guards (fun _ => true) ([] : MigDir) ⟨false, ["m1"], []⟩).2 "m1"
      (by decide) (by decide)).1⟩

end Flow
